import Mathlib

/-! Verification of the mcp-pg-metatool server core: the named-parameter SQL
rewriter (src/parameterMapper.ts), the JSON-schema structural validator and
Zod conversion (src/jsonSchemaValidator.ts), the shared response envelope
(src/responses.ts), the dynamic tool handler pipeline
(src/dynamicToolHandler.ts, tools/executeSqlQuery), and the save/delete
tool-lifecycle handlers (tools/saveQuery, tools/deleteSavedQuery) with the
file-backed persistence store (src/storage.ts).

Strings are scanned as their character lists. The rewriter's regex
/(?<!:):([a-zA-Z_][a-zA-Z0-9_]*)/g is embedded as a left-to-right scanner
that carries the character preceding the scan position in the original
string (the negative lookbehind inspects the input, never the replacement).
The scanners take a fuel argument so they compute by structural recursion;
every entry point passes the input length, which bounds the number of scan
steps since each step consumes at least one character. -/

namespace PgMetatool

/-- The regex class [a-zA-Z_] (identifier start) of the named-parameter
regex in src/parameterMapper.ts. `Char.isAlpha` is exactly a-z and A-Z. -/
def isIdentStart (c : Char) : Bool := c.isAlpha || c == '_'

/-- The regex class [a-zA-Z0-9_] (identifier continuation). -/
def isIdentCont (c : Char) : Bool := c.isAlphanum || c == '_'

/-- Does the remainder of the input begin with an identifier-start char? -/
def headIsIdentStart : List Char → Bool
  | [] => false
  | c :: _ => isIdentStart c

/-- The match condition of /(?<!:):([a-zA-Z_][a-zA-Z0-9_]*)/ at the current
scan position: the current character is a colon, the character before it in
the original input is not a colon (negative lookbehind; vacuous at the
start of the string), and an identifier starts right after the colon. -/
def matchCond (c : Char) (prev : Option Char) (rest : List Char) : Bool :=
  c == ':' && !(prev == some ':') && headIsIdentStart rest

/-- Position of a name in the parameter-order list (0-based); models
`paramMap.get(paramName)` of parseNamedParameters, whose map sends each
name to its index in parameterOrder plus one. -/
def posOf (name : String) : List String → Nat
  | [] => 0
  | x :: rest => if x = name then 0 else posOf name rest + 1

/-- The replacement scan of `parseNamedParameters`
(src/parameterMapper.ts:22-39): walk the input left to right; at a regex
match, consume `:name`, assign the name the next 1-based position on first
occurrence, and emit `$pos`; otherwise copy one character. Returns the
rewritten character list and the final parameterOrder accumulator. -/
def scanReplaceF : Nat → List Char → Option Char → List String → List Char × List String
  | 0, _, _, order => ([], order)
  | _ + 1, [], _, order => ([], order)
  | fuel + 1, c :: rest, prev, order =>
    if matchCond c prev rest then
      let nameChars := rest.takeWhile isIdentCont
      let name : String := ⟨nameChars⟩
      let order' := if name ∈ order then order else order ++ [name]
      let pos : Nat := posOf name order' + 1
      let next := scanReplaceF fuel (rest.dropWhile isIdentCont) nameChars.getLast? order'
      ('$' :: ((Nat.repr pos).data ++ next.1), next.2)
    else
      let next := scanReplaceF fuel rest (some c) order
      (c :: next.1, next.2)

/-- The match scan of the same regex, as used by `extractNamedParameters`
(src/parameterMapper.ts:61-65): the sequence of captured parameter names,
in match order, duplicates included. -/
def scanNamesF : Nat → List Char → Option Char → List String
  | 0, _, _ => []
  | _ + 1, [], _ => []
  | fuel + 1, c :: rest, prev =>
    if matchCond c prev rest then
      (⟨rest.takeWhile isIdentCont⟩ : String) ::
        scanNamesF fuel (rest.dropWhile isIdentCont) (rest.takeWhile isIdentCont).getLast?
    else scanNamesF fuel rest (some c)

/-- The result record of parseNamedParameters. -/
structure ParameterMapping where
  sql : String
  parameterOrder : List String
deriving Repr, DecidableEq

/-- src/parameterMapper.ts `parseNamedParameters`: rewrite `:name`
placeholders to `$N` positional parameters and collect the distinct names
in first-occurrence order. -/
def parseNamedParameters (sqlWithNamedParams : String) : ParameterMapping :=
  let r := scanReplaceF sqlWithNamedParams.data.length sqlWithNamedParams.data none []
  { sql := ⟨r.1⟩, parameterOrder := r.2 }

/-- One step of JS `new Set` insertion: add the name unless already present. -/
def insertIfAbsent (acc : List String) (x : String) : List String :=
  if x ∈ acc then acc else acc ++ [x]

/-- JS `[...new Set(names)]`: de-duplicate, keeping first-occurrence order. -/
def dedupFirst (names : List String) : List String := names.foldl insertIfAbsent []

/-- src/parameterMapper.ts `extractNamedParameters`: unique parameter names
of the SQL text, via matchAll on the same regex and Set de-duplication. -/
def extractNamedParameters (sql : String) : List String :=
  dedupFirst (scanNamesF sql.data.length sql.data none)

/-- JS object property lookup on a finite map represented as an association
list (a JS object has one binding per key). -/
def lookupStr {α : Type} (key : String) : List (String × α) → Option α
  | [] => none
  | (k, v) :: rest => if k = key then some v else lookupStr key rest

/-- src/parameterMapper.ts `mapToPositional`: for each name in order, the
value bound in the params object; an absent key yields `none` (JS
undefined). -/
def mapToPositional {α : Type} (params : List (String × α)) (parameterOrder : List String) : List (Option α) :=
  parameterOrder.map fun name => lookupStr name params

example : parseNamedParameters "SELECT * FROM t WHERE a = :x AND b = :y AND c = :x" =
    { sql := "SELECT * FROM t WHERE a = $1 AND b = $2 AND c = $1", parameterOrder := ["x", "y"] } := by
  decide

example : parseNamedParameters ":id::int" =
    { sql := "$1::int", parameterOrder := ["id"] } := by decide

example : parseNamedParameters "SELECT created_at::date FROM users WHERE id = :user_id" =
    { sql := "SELECT created_at::date FROM users WHERE id = $1", parameterOrder := ["user_id"] } := by
  decide

example : extractNamedParameters "a = :x AND b = :y AND c = :x" = ["x", "y"] := by decide

/-- Both uses of the regex agree: the parameterOrder accumulated by the
replacement scan is the Set-style first-occurrence fold over the match
sequence, from any starting accumulator. -/
theorem scanReplaceF_snd (fuel : Nat) :
    ∀ (l : List Char) (prev : Option Char) (order : List String),
      (scanReplaceF fuel l prev order).2 = (scanNamesF fuel l prev).foldl insertIfAbsent order := by
  induction fuel with
  | zero => intro l prev order; simp [scanReplaceF, scanNamesF]
  | succ fuel ih =>
    intro l prev order
    cases l with
    | nil => simp [scanReplaceF, scanNamesF]
    | cons c rest =>
      by_cases h : matchCond c prev rest = true
      · simp only [scanReplaceF, scanNamesF, h, if_true, List.foldl_cons]
        rw [ih]
        rfl
      · simp only [scanReplaceF, scanNamesF, h, if_false]
        exact ih rest (some c) order

/-- C10: extractNamedParameters returns exactly the parameterOrder component
of parseNamedParameters: both detect placeholders with the same regex and
de-duplicate by first occurrence, so the two independent implementations are
extensionally equal on the name list. -/
theorem extractNamedParameters_eq_parameterOrder (sql : String) :
    extractNamedParameters sql = (parseNamedParameters sql).parameterOrder := by
  show List.foldl insertIfAbsent [] (scanNamesF sql.data.length sql.data none) =
    (scanReplaceF sql.data.length sql.data none []).2
  rw [scanReplaceF_snd]

/-- Specification-side rendering for the first-occurrence-position property:
walk the input with the same regex-match rule, but replace every matched
`:name` by a dollar sign and the name's fixed 1-based position in a given
final parameter order, copying every other character unchanged. -/
def renderWithOrderF : Nat → List Char → Option Char → List String → List Char
  | 0, _, _, _ => []
  | _ + 1, [], _, _ => []
  | fuel + 1, c :: rest, prev, finalOrder =>
    if matchCond c prev rest then
      '$' :: ((Nat.repr (posOf (⟨rest.takeWhile isIdentCont⟩ : String) finalOrder + 1)).data ++
        renderWithOrderF fuel (rest.dropWhile isIdentCont) (rest.takeWhile isIdentCont).getLast? finalOrder)
    else c :: renderWithOrderF fuel rest (some c) finalOrder

theorem prefix_insertIfAbsent (acc : List String) (x : String) : acc <+: insertIfAbsent acc x := by
  unfold insertIfAbsent
  split
  · exact List.prefix_refl acc
  · exact ⟨[x], rfl⟩

theorem prefix_foldl_insertIfAbsent (ms : List String) :
    ∀ acc : List String, acc <+: ms.foldl insertIfAbsent acc := by
  induction ms with
  | nil => intro acc; exact List.prefix_refl acc
  | cons m ms ih =>
    intro acc
    exact (prefix_insertIfAbsent acc m).trans (ih (insertIfAbsent acc m))

theorem mem_insertIfAbsent_self (acc : List String) (x : String) : x ∈ insertIfAbsent acc x := by
  unfold insertIfAbsent
  split
  · assumption
  · simp

theorem posOf_append (name : String) (l t : List String) (h : name ∈ l) :
    posOf name (l ++ t) = posOf name l := by
  induction l with
  | nil => cases h
  | cons x xs ih =>
    by_cases hx : x = name
    · simp [posOf, hx]
    · have : name ∈ xs := by
        rcases List.mem_cons.mp h with h1 | h2
        · exact absurd h1.symm hx
        · exact h2
      simp [posOf, hx, ih this]

theorem posOf_extend (name : String) {l₁ l₂ : List String} (hpre : l₁ <+: l₂) (h : name ∈ l₁) :
    posOf name l₁ = posOf name l₂ := by
  rcases hpre with ⟨t, rfl⟩
  exact (posOf_append name l₁ t h).symm

/-- The rewritten SQL of the replacement scan equals the spec-side rendering
against any list extending the scan's final parameter order: positions are
assigned at first occurrence and never change afterwards. -/
theorem scanReplaceF_fst (fuel : Nat) :
    ∀ (l : List Char) (prev : Option Char) (order F : List String),
      ((scanNamesF fuel l prev).foldl insertIfAbsent order) <+: F →
      (scanReplaceF fuel l prev order).1 = renderWithOrderF fuel l prev F := by
  induction fuel with
  | zero => intro l prev order F _; simp [scanReplaceF, renderWithOrderF]
  | succ fuel ih =>
    intro l prev order F hpre
    cases l with
    | nil => simp [scanReplaceF, renderWithOrderF]
    | cons c rest =>
      by_cases h : matchCond c prev rest = true
      · simp only [scanNamesF, h, if_true, List.foldl_cons] at hpre
        simp only [scanReplaceF, renderWithOrderF, h, if_true]
        have horder : (if (⟨rest.takeWhile isIdentCont⟩ : String) ∈ order then order
            else order ++ [(⟨rest.takeWhile isIdentCont⟩ : String)]) =
            insertIfAbsent order ⟨rest.takeWhile isIdentCont⟩ := rfl
        rw [horder]
        have hmem : (⟨rest.takeWhile isIdentCont⟩ : String) ∈
            insertIfAbsent order ⟨rest.takeWhile isIdentCont⟩ :=
          mem_insertIfAbsent_self order _
        have hpre' : insertIfAbsent order ⟨rest.takeWhile isIdentCont⟩ <+: F :=
          (prefix_foldl_insertIfAbsent _ _).trans hpre
        rw [posOf_extend _ hpre' hmem]
        rw [ih _ _ _ _ hpre]
      · simp only [scanNamesF, h, Bool.false_eq_true, if_false] at hpre
        simp only [scanReplaceF, renderWithOrderF, h, Bool.false_eq_true, if_false]
        rw [ih _ _ _ _ hpre]

theorem mem_foldl_insertIfAbsent_of_mem (ms : List String) :
    ∀ (acc : List String) (x : String), x ∈ ms → x ∈ ms.foldl insertIfAbsent acc := by
  induction ms with
  | nil => intro acc x h; cases h
  | cons m ms ih =>
    intro acc x h
    rcases List.mem_cons.mp h with h1 | h2
    · subst h1
      obtain ⟨t, ht⟩ := prefix_foldl_insertIfAbsent ms (insertIfAbsent acc x)
      rw [List.foldl_cons, ← ht]
      exact List.mem_append_left t (mem_insertIfAbsent_self acc x)
    · rw [List.foldl_cons]
      exact ih _ x h2

theorem mem_foldl_insertIfAbsent_cases (ms : List String) :
    ∀ (acc : List String) (x : String), x ∈ ms.foldl insertIfAbsent acc → x ∈ acc ∨ x ∈ ms := by
  induction ms with
  | nil => intro acc x h; exact Or.inl h
  | cons m ms ih =>
    intro acc x h
    rw [List.foldl_cons] at h
    rcases ih _ x h with h1 | h2
    · unfold insertIfAbsent at h1
      split at h1
      · exact Or.inl h1
      · rcases List.mem_append.mp h1 with ha | hb
        · exact Or.inl ha
        · simp only [List.mem_singleton] at hb
          exact Or.inr (by simp [hb])
    · exact Or.inr (List.mem_cons_of_mem m h2)

theorem nodup_insertIfAbsent (acc : List String) (x : String) (h : acc.Nodup) :
    (insertIfAbsent acc x).Nodup := by
  unfold insertIfAbsent
  split
  · exact h
  · rw [List.nodup_append]
    exact ⟨h, List.nodup_singleton x, by simpa using fun hx => by simp_all⟩

theorem nodup_foldl_insertIfAbsent (ms : List String) :
    ∀ acc : List String, acc.Nodup → (ms.foldl insertIfAbsent acc).Nodup := by
  induction ms with
  | nil => intro acc h; exact h
  | cons m ms ih =>
    intro acc h
    rw [List.foldl_cons]
    exact ih _ (nodup_insertIfAbsent acc m h)

theorem posOf_lt_length (name : String) (l : List String) (h : name ∈ l) :
    posOf name l < l.length := by
  induction l with
  | nil => cases h
  | cons x xs ih =>
    by_cases hx : x = name
    · simp [posOf, hx]
    · have : name ∈ xs := by
        rcases List.mem_cons.mp h with h1 | h2
        · exact absurd h1.symm hx
        · exact h2
      simp only [posOf, hx, if_false, List.length_cons]
      exact Nat.succ_lt_succ (ih this)

theorem posOf_get (l : List String) (h : l.Nodup) :
    ∀ (i : Nat) (hi : i < l.length), posOf (l.get ⟨i, hi⟩) l = i := by
  induction l with
  | nil => intro i hi; cases hi
  | cons x xs ih =>
    intro i hi
    cases i with
    | zero => simp [posOf]
    | succ i =>
      have hx : xs.get ⟨i, Nat.lt_of_succ_lt_succ hi⟩ ∈ xs :=
        List.get_mem xs i (Nat.lt_of_succ_lt_succ hi)
      have hne : x ≠ xs.get ⟨i, Nat.lt_of_succ_lt_succ hi⟩ := by
        intro hcontra
        exact (List.nodup_cons.mp h).1 (hcontra ▸ hx)
      simp only [List.get, posOf, hne, if_false]
      rw [ih (List.nodup_cons.mp h).2]

/-- C1: parseNamedParameters replaces each `:name` regex match with `$i`,
where `i` is the fixed 1-based first-occurrence position of the name
(repeated names collapse to one position, so all their occurrences rewrite
to the same `$i`); parameterOrder is the match-name sequence de-duplicated
by first occurrence; every used position is at most parameterOrder.length
and every position 1..length is used, so the length equals the highest
position used; and the concrete scenario A holds. -/
theorem parseNamedParameters_correct (s : String) :
    (parseNamedParameters s).parameterOrder = dedupFirst (scanNamesF s.data.length s.data none)
    ∧ (parseNamedParameters s).sql.data =
        renderWithOrderF s.data.length s.data none (parseNamedParameters s).parameterOrder
    ∧ (∀ name ∈ scanNamesF s.data.length s.data none,
        posOf name (parseNamedParameters s).parameterOrder + 1 ≤
          (parseNamedParameters s).parameterOrder.length)
    ∧ (∀ i, i < (parseNamedParameters s).parameterOrder.length →
        ∃ name ∈ scanNamesF s.data.length s.data none,
          posOf name (parseNamedParameters s).parameterOrder = i)
    ∧ parseNamedParameters "SELECT * FROM t WHERE a = :x AND b = :y AND c = :x" =
        { sql := "SELECT * FROM t WHERE a = $1 AND b = $2 AND c = $1", parameterOrder := ["x", "y"] } := by
  have hF : (parseNamedParameters s).parameterOrder =
      List.foldl insertIfAbsent [] (scanNamesF s.data.length s.data none) := by
    show (scanReplaceF s.data.length s.data none []).2 = _
    exact scanReplaceF_snd _ _ _ _
  have hnodup : (parseNamedParameters s).parameterOrder.Nodup := by
    rw [hF]; exact nodup_foldl_insertIfAbsent _ _ List.nodup_nil
  refine ⟨hF, ?_, ?_, ?_, by decide⟩
  · show (scanReplaceF s.data.length s.data none []).1 = _
    apply scanReplaceF_fst
    rw [hF]
  · intro name hname
    have hmem : name ∈ (parseNamedParameters s).parameterOrder := by
      rw [hF]; exact mem_foldl_insertIfAbsent_of_mem _ _ _ hname
    exact posOf_lt_length name _ hmem
  · intro i hi
    have hsub : ∀ x, x ∈ (parseNamedParameters s).parameterOrder →
        x ∈ scanNamesF s.data.length s.data none := by
      intro x hx
      rw [hF] at hx
      rcases mem_foldl_insertIfAbsent_cases _ _ _ hx with hnil | hms
      · cases hnil
      · exact hms
    exact ⟨(parseNamedParameters s).parameterOrder.get ⟨i, hi⟩,
      hsub _ (List.get_mem _ i hi), posOf_get _ hnodup i hi⟩

/-- Witness for C1 at the spec's concrete scenario A: the duplicate name x
is assigned position 1, within the order's length. -/
theorem parseNamedParameters_correct_witness :
    posOf "x" (parseNamedParameters "SELECT * FROM t WHERE a = :x AND b = :y AND c = :x").parameterOrder + 1 ≤
      (parseNamedParameters "SELECT * FROM t WHERE a = :x AND b = :y AND c = :x").parameterOrder.length :=
  (parseNamedParameters_correct "SELECT * FROM t WHERE a = :x AND b = :y AND c = :x").2.2.1 "x" (by decide)

/-- The regex match scan annotated with match start indices, as JS matchAll
reports them: the scanner's position bookkeeping over the original string. -/
def scanNamesPosF : Nat → List Char → Option Char → Nat → List (Nat × String)
  | 0, _, _, _ => []
  | _ + 1, [], _, _ => []
  | fuel + 1, c :: rest, prev, i =>
    if matchCond c prev rest then
      (i, (⟨rest.takeWhile isIdentCont⟩ : String)) ::
        scanNamesPosF fuel (rest.dropWhile isIdentCont) (rest.takeWhile isIdentCont).getLast?
          (i + 1 + (rest.takeWhile isIdentCont).length)
    else scanNamesPosF fuel rest (some c) (i + 1)

/-- All matches of the named-parameter regex in a SQL string, with their
start indices. -/
def matchesPos (sql : String) : List (Nat × String) :=
  scanNamesPosF sql.data.length sql.data none 0

/-- The character of the original input just before scan position i (what
the negative lookbehind inspects); none at the start of the string. -/
def prevCharAt (s : List Char) (i : Nat) : Option Char :=
  if i = 0 then none else s.get? (i - 1)

theorem matchCond_iff (c : Char) (prev : Option Char) (rest : List Char) :
    matchCond c prev rest = true ↔
      c = ':' ∧ prev ≠ some ':' ∧ headIsIdentStart rest = true := by
  simp only [matchCond, Bool.and_eq_true, beq_iff_eq, Bool.not_eq_true', beq_eq_false_iff_ne,
    ne_eq, and_assoc]

theorem isIdentStart_isIdentCont {c : Char} (h : isIdentStart c = true) : isIdentCont c = true := by
  unfold isIdentStart at h
  unfold isIdentCont
  rcases Bool.or_eq_true_iff.mp h with h1 | h2
  · simp [Char.isAlphanum, h1]
  · simp [h2]

theorem drop_eq_cons_split (i : Nat) (s : List Char) (c : Char) (rest : List Char)
    (h : s.drop i = c :: rest) : s.get? i = some c ∧ s.drop (i + 1) = rest := by
  induction i generalizing s with
  | zero =>
    simp only [List.drop_zero] at h
    subst h
    exact ⟨rfl, by simp⟩
  | succ i ih =>
    cases s with
    | nil => simp at h
    | cons d s' =>
      have := ih s' (by simpa using h)
      exact ⟨this.1, this.2⟩

theorem scanLen_pos {rest : List Char} (hhead : headIsIdentStart rest = true) :
    1 ≤ (rest.takeWhile isIdentCont).length := by
  cases rest with
  | nil => simp [headIsIdentStart] at hhead
  | cons d rest' =>
    have : isIdentCont d = true := isIdentStart_isIdentCont (by simpa [headIsIdentStart] using hhead)
    simp [List.takeWhile_cons, this]

/-- Advancing the scan past a matched name keeps the position bookkeeping in
step with the original string. -/
theorem matchStep_inv (s : List Char) (i : Nat) (c : Char) (rest : List Char)
    (hdrop : s.drop i = c :: rest) (hhead : headIsIdentStart rest = true) :
    s.drop (i + 1 + (rest.takeWhile isIdentCont).length) = rest.dropWhile isIdentCont
    ∧ prevCharAt s (i + 1 + (rest.takeWhile isIdentCont).length) =
        (rest.takeWhile isIdentCont).getLast? := by
  have hdrop1 : s.drop (i + 1) = rest := (drop_eq_cons_split i s c rest hdrop).2
  have hk : 1 ≤ (rest.takeWhile isIdentCont).length := scanLen_pos hhead
  have hsplit : rest.takeWhile isIdentCont ++ rest.dropWhile isIdentCont = rest :=
    List.takeWhile_append_dropWhile isIdentCont rest
  constructor
  · have h1 : s.drop (i + 1 + (rest.takeWhile isIdentCont).length) =
        (s.drop (i + 1)).drop (rest.takeWhile isIdentCont).length := by
      rw [List.drop_drop]
    rw [h1, hdrop1]
    calc rest.drop (rest.takeWhile isIdentCont).length
        = (rest.takeWhile isIdentCont ++ rest.dropWhile isIdentCont).drop
            (rest.takeWhile isIdentCont).length := by rw [hsplit]
      _ = rest.dropWhile isIdentCont := List.drop_left _ _
  · have hne : i + 1 + (rest.takeWhile isIdentCont).length ≠ 0 := by omega
    unfold prevCharAt
    rw [if_neg hne]
    have harith : i + 1 + (rest.takeWhile isIdentCont).length - 1 =
        (i + 1) + ((rest.takeWhile isIdentCont).length - 1) := by omega
    rw [harith]
    have hget : s.get? ((i + 1) + ((rest.takeWhile isIdentCont).length - 1)) =
        (s.drop (i + 1)).get? ((rest.takeWhile isIdentCont).length - 1) := by
      rw [List.get?_drop]
    rw [hget, hdrop1]
    have hlt : (rest.takeWhile isIdentCont).length - 1 < (rest.takeWhile isIdentCont).length := by
      omega
    calc rest.get? ((rest.takeWhile isIdentCont).length - 1)
        = (rest.takeWhile isIdentCont ++ rest.dropWhile isIdentCont).get?
            ((rest.takeWhile isIdentCont).length - 1) := by rw [hsplit]
      _ = (rest.takeWhile isIdentCont).get? ((rest.takeWhile isIdentCont).length - 1) :=
          List.get?_append hlt
      _ = (rest.takeWhile isIdentCont).getLast? := (List.getLast?_eq_get? _).symm

theorem prevCharAt_succ (s : List Char) (i : Nat) : prevCharAt s (i + 1) = s.get? i := by
  unfold prevCharAt
  simp

/-- Position-annotated and plain match scans see the same names. -/
theorem scanNamesPosF_map_snd (fuel : Nat) :
    ∀ (l : List Char) (prev : Option Char) (i : Nat),
      (scanNamesPosF fuel l prev i).map Prod.snd = scanNamesF fuel l prev := by
  induction fuel with
  | zero => intro l prev i; simp [scanNamesPosF, scanNamesF]
  | succ fuel ih =>
    intro l prev i
    cases l with
    | nil => simp [scanNamesPosF, scanNamesF]
    | cons c rest =>
      by_cases hm : matchCond c prev rest = true
      · simp only [scanNamesPosF, scanNamesF, hm, if_true, List.map_cons]
        rw [ih]
      · simp only [scanNamesPosF, scanNamesF, hm, Bool.false_eq_true, if_false]
        exact ih _ _ _

/-- Every reported match starts at a colon whose preceding character in the
original string is not a colon (so the second colon of a type cast is never
a match start), is followed by an identifier-start character, and captures
the maximal identifier run after the colon. -/
theorem scanNamesPosF_sound (fuel : Nat) :
    ∀ (s l : List Char) (prev : Option Char) (i : Nat),
      l = s.drop i → prev = prevCharAt s i →
      ∀ j name, (j, name) ∈ scanNamesPosF fuel l prev i →
        s.get? j = some ':'
        ∧ (j = 0 ∨ s.get? (j - 1) ≠ some ':')
        ∧ (∃ c, s.get? (j + 1) = some c ∧ isIdentStart c = true)
        ∧ name = ⟨(s.drop (j + 1)).takeWhile isIdentCont⟩ := by
  induction fuel with
  | zero => intro s l prev i _ _ j name h; simp [scanNamesPosF] at h
  | succ fuel ih =>
    intro s l prev i hl hprev j name hmem
    cases l with
    | nil => simp [scanNamesPosF] at hmem
    | cons c rest =>
      have hsplit := drop_eq_cons_split i s c rest hl.symm
      by_cases hm : matchCond c prev rest = true
      · obtain ⟨hc, hpcol, hhead⟩ := (matchCond_iff c prev rest).mp hm
        subst hc
        simp only [scanNamesPosF, hm, if_true, List.mem_cons] at hmem
        rcases hmem with heq | htail
        · rw [Prod.mk.injEq] at heq
          obtain ⟨rfl, rfl⟩ := heq
          refine ⟨hsplit.1, ?_, ?_, ?_⟩
          · by_cases hi : j = 0
            · exact Or.inl hi
            · refine Or.inr ?_
              rw [hprev] at hpcol
              unfold prevCharAt at hpcol
              rw [if_neg hi] at hpcol
              exact hpcol
          · cases rest with
            | nil => simp [headIsIdentStart] at hhead
            | cons d rest' =>
              exact ⟨d, (drop_eq_cons_split (j + 1) s d rest' hsplit.2).1,
                by simpa [headIsIdentStart] using hhead⟩
          · rw [hsplit.2]
        · have hinv := matchStep_inv s i ':' rest hl.symm hhead
          exact ih s _ _ _ hinv.1.symm hinv.2.symm j name htail
      · simp only [scanNamesPosF, hm, Bool.false_eq_true, if_false] at hmem
        exact ih s rest (some c) (i + 1) hsplit.2.symm
          (by rw [prevCharAt_succ, hsplit.1]) j name hmem

theorem get?_none_of_drop_nil {s : List Char} {i j : Nat} (h : s.drop i = []) (hij : i ≤ j) :
    s.get? j = none := by
  have hlen : s.length ≤ i := List.drop_eq_nil_iff_le.mp h
  exact List.get?_eq_none.mpr (le_trans hlen hij)

/-- Completeness of the match scan: every colon that is not preceded by a
colon and is immediately followed by an identifier start is reported as a
match, capturing the maximal identifier run after it. -/
theorem scanNamesPosF_complete (fuel : Nat) :
    ∀ (s l : List Char) (prev : Option Char) (i : Nat),
      l = s.drop i → prev = prevCharAt s i → l.length ≤ fuel →
      ∀ j, i ≤ j → s.get? j = some ':' →
        (j = 0 ∨ s.get? (j - 1) ≠ some ':') →
        (∃ c, s.get? (j + 1) = some c ∧ isIdentStart c = true) →
        (j, (⟨(s.drop (j + 1)).takeWhile isIdentCont⟩ : String)) ∈ scanNamesPosF fuel l prev i := by
  induction fuel with
  | zero =>
    intro s l prev i hl _ hlen j hij hcolon _ _
    have hnil : l = [] := List.length_eq_zero.mp (Nat.le_zero.mp hlen)
    rw [hnil] at hl
    rw [get?_none_of_drop_nil hl.symm hij] at hcolon
    cases hcolon
  | succ fuel ih =>
    intro s l prev i hl hprev hlen j hij hcolon hlb hident
    cases l with
    | nil =>
      rw [get?_none_of_drop_nil hl.symm hij] at hcolon
      cases hcolon
    | cons c rest =>
      have hsplit := drop_eq_cons_split i s c rest hl.symm
      have hsplitrest : rest.takeWhile isIdentCont ++ rest.dropWhile isIdentCont = rest :=
        List.takeWhile_append_dropWhile isIdentCont rest
      by_cases hm : matchCond c prev rest = true
      · obtain ⟨hc, hpcol, hhead⟩ := (matchCond_iff _ _ _).mp hm
        subst hc
        by_cases hji : j = i
        · subst hji
          simp only [scanNamesPosF, hm, if_true]
          rw [hsplit.2]
          exact List.mem_cons_self _ _
        · by_cases hjk : j < i + 1 + (rest.takeWhile isIdentCont).length
          · exfalso
            have hgd : (s.drop (i + 1)).get? (j - (i + 1)) =
                s.get? ((i + 1) + (j - (i + 1))) := List.get?_drop _ _ _
            have hget : s.get? j = rest.get? (j - (i + 1)) := by
              rw [← hsplit.2, hgd]
              congr 1
              omega
            have hidx : j - (i + 1) < (rest.takeWhile isIdentCont).length := by omega
            have hget2 : rest.get? (j - (i + 1)) =
                (rest.takeWhile isIdentCont).get? (j - (i + 1)) := by
              conv_lhs => rw [← hsplitrest]
              exact List.get?_append hidx
            have hmemtk : (':' : Char) ∈ rest.takeWhile isIdentCont := by
              have hsome : (rest.takeWhile isIdentCont).get? (j - (i + 1)) = some ':' := by
                rw [← hget2, ← hget]
                exact hcolon
              exact List.get?_mem hsome
            have hcont := List.mem_takeWhile_imp hmemtk
            exact absurd hcont (by decide)
          · have hinv := matchStep_inv s i ':' rest hl.symm hhead
            have hlen' : (rest.dropWhile isIdentCont).length ≤ fuel := by
              have h1 : (rest.takeWhile isIdentCont).length +
                  (rest.dropWhile isIdentCont).length = rest.length := by
                rw [← List.length_append, hsplitrest]
              have h2 : rest.length + 1 ≤ fuel + 1 := by simpa using hlen
              omega
            simp only [scanNamesPosF, hm, if_true]
            refine List.mem_cons_of_mem _ ?_
            exact ih s _ _ _ hinv.1.symm hinv.2.symm hlen' j (by omega) hcolon hlb hident
      · by_cases hji : j = i
        · exfalso
          subst hji
          have hc : c = ':' := by
            have := hsplit.1
            rw [hcolon] at this
            exact (Option.some.injEq _ _ ▸ this.symm : _)
          apply hm
          refine (matchCond_iff _ _ _).mpr ⟨hc, ?_, ?_⟩
          · rcases hlb with h0 | hne
            · rw [hprev]
              unfold prevCharAt
              rw [if_pos h0]
              simp
            · rw [hprev]
              unfold prevCharAt
              by_cases hj0 : j = 0
              · rw [if_pos hj0]; simp
              · rw [if_neg hj0]; exact hne
          · obtain ⟨d, hd, hds⟩ := hident
            have : s.drop (j + 1) = rest := hsplit.2
            cases rest with
            | nil =>
              rw [get?_none_of_drop_nil (i := j + 1) (j := j + 1) (by rw [this]) (le_refl _)] at hd
              cases hd
            | cons e rest' =>
              have he : s.get? (j + 1) = some e := (drop_eq_cons_split (j + 1) s e rest' this).1
              rw [he] at hd
              have : e = d := by
                exact (Option.some.injEq _ _ ▸ hd : _)
              simp [headIsIdentStart, this, hds]
        · simp only [scanNamesPosF, hm, Bool.false_eq_true, if_false]
          exact ih s rest (some c) (i + 1) hsplit.2.symm
            (by rw [prevCharAt_succ, hsplit.1]) (by simpa using hlen) j (by omega) hcolon hlb hident

/-- C2: a type-cast token is never captured: every regex match starts at a
colon not preceded by another colon, so the second colon of a double colon
never starts a match and the cast's identifier never enters parameterOrder
through that occurrence (parameterOrder is exactly the de-duplicated match
names); conversely every single colon (not preceded by a colon) immediately
followed by an identifier is captured, with the whole identifier run as the
name; and parsing ":id::int" yields "$1::int" with parameterOrder = [id]. -/
theorem typeCast_not_placeholder (s : String) :
    (∀ j name, (j, name) ∈ matchesPos s →
      s.data.get? j = some ':' ∧ (j = 0 ∨ s.data.get? (j - 1) ≠ some ':'))
    ∧ (∀ j, s.data.get? j = some ':' →
        (j = 0 ∨ s.data.get? (j - 1) ≠ some ':') →
        (∃ c, s.data.get? (j + 1) = some c ∧ isIdentStart c = true) →
        (j, (⟨(s.data.drop (j + 1)).takeWhile isIdentCont⟩ : String)) ∈ matchesPos s)
    ∧ (parseNamedParameters s).parameterOrder = dedupFirst ((matchesPos s).map Prod.snd)
    ∧ parseNamedParameters ":id::int" = { sql := "$1::int", parameterOrder := ["id"] } := by
  refine ⟨?_, ?_, ?_, by decide⟩
  · intro j name h
    have hs := scanNamesPosF_sound s.data.length s.data s.data none 0 (by simp)
      (by simp [prevCharAt]) j name h
    exact ⟨hs.1, hs.2.1⟩
  · intro j h1 h2 h3
    exact scanNamesPosF_complete s.data.length s.data s.data none 0 (by simp)
      (by simp [prevCharAt]) (le_refl _) j (Nat.zero_le j) h1 h2 h3
  · show (scanReplaceF s.data.length s.data none []).2 = _
    rw [scanReplaceF_snd]
    unfold matchesPos
    rw [scanNamesPosF_map_snd]
    rfl

/-- Witness for C2 at the cast-adjacent placeholder ":id::int": position 0
is a capturing colon, and the captured name is id. -/
theorem typeCast_not_placeholder_witness :
    ((0 : Nat), ("id" : String)) ∈ matchesPos ":id::int" := by
  have h := (typeCast_not_placeholder ":id::int").2.1 0 (by decide) (Or.inl rfl)
    ⟨'i', by decide, by decide⟩
  simpa using h

/-- JSON-like runtime values: the data handled as `unknown`/`any` in the
TypeScript source (schema candidates, parameter values, stored records). -/
inductive JsonValue where
  | null : JsonValue
  | bool : Bool → JsonValue
  | num : Int → JsonValue
  | str : String → JsonValue
  | arr : List JsonValue → JsonValue
  | obj : List (String × JsonValue) → JsonValue

/-- The JSON-Schema `type` keyword vocabulary accepted by the meta-schema. -/
def validTypeName (t : String) : Bool :=
  t == "string" || t == "number" || t == "integer" || t == "boolean" ||
    t == "object" || t == "array" || t == "null"

/-- A well-formed value for the `type` keyword: a valid type name or an
array of valid type names. -/
def typeValueOk : JsonValue → Bool
  | .str t => validTypeName t
  | .arr ts => ts.all fun t => match t with | .str t' => validTypeName t' | _ => false
  | _ => false

/-- Modelled from the spec: the JSON-Schema compiler that validateJsonSchema
invokes (the Ajv collaborator, outside this repository) is contracted in
spec section 4.2 to accept a candidate exactly when it is an object form
whose type declarations are well-formed, and to reject unknown/invalid
`type` values; the repository unit test "rejects schema with invalid type"
pins the same behavior. The model checks the `type` keyword recursively
through `properties` and `items`, requires `properties` to be an object,
accepts any other keyword, and rejects every non-object candidate (for Ajv,
a schema must be an object or a boolean, and booleans never reach it past
the guard in validateJsonSchema). -/
def ajvCompileOk : JsonValue → Bool
  | .obj fields => go fields
  | _ => false
where
  go : List (String × JsonValue) → Bool
  | [] => true
  | (k, v) :: rest =>
    (if k = "type" then typeValueOk v
     else if k = "properties" then
       (match v with
        | .obj props => goProps props
        | _ => false)
     else if k = "items" then ajvCompileOk v
     else true) && go rest
  goProps : List (String × JsonValue) → Bool
  | [] => true
  | (_, v) :: rest => ajvCompileOk v && goProps rest

/-- src/jsonSchemaValidator.ts validateJsonSchema: false for null and for
every candidate whose JS typeof is not object (strings, numbers,
booleans); otherwise true exactly when the schema compiler accepts the
candidate (arrays pass the typeof guard but the compiler rejects them). -/
def validateJsonSchema : JsonValue → Bool
  | .null => false
  | .bool _ => false
  | .num _ => false
  | .str _ => false
  | .arr xs => ajvCompileOk (.arr xs)
  | .obj fields => ajvCompileOk (.obj fields)

/-- Counterexample to C3 as stated: a non-null, otherwise well-formed object
whose declared type is outside the known vocabulary is rejected by
validateJsonSchema, not accepted; this is the repository unit test input
from test/unit/jsonSchemaValidator.test.ts ("rejects schema with invalid
type"). The claim asserts the result is true; it is false. -/
theorem validateJsonSchema_unknown_type_rejected :
    validateJsonSchema (.obj [("type", .str "invalid_type"), ("properties", .obj [])]) = false := by
  decide

/-- C3 amended: validateJsonSchema returns false for null, a bare string, a
number, and an array; it returns true for a non-null object candidate whose
declared type belongs to the JSON-Schema vocabulary, including types
outside the value-converter's specially-supported set (such as object,
which falls into the converter's catch-all); but an object with a declared
type outside the vocabulary is rejected, not accepted. -/
theorem validateJsonSchema_structural :
    validateJsonSchema .null = false
    ∧ (∀ s : String, validateJsonSchema (.str s) = false)
    ∧ (∀ n : Int, validateJsonSchema (.num n) = false)
    ∧ (∀ xs : List JsonValue, validateJsonSchema (.arr xs) = false)
    ∧ validateJsonSchema (.obj [("type", .str "object"), ("properties", .obj [])]) = true
    ∧ validateJsonSchema (.obj [("type", .str "invalid_type"), ("properties", .obj [])]) = false := by
  refine ⟨rfl, fun s => rfl, fun n => rfl, fun xs => rfl, by decide, by decide⟩

/-- The Zod base types that the manual JSON-Schema conversion produces. -/
inductive ZodBase where
  | string : ZodBase
  | number : ZodBase
  | int : ZodBase
  | boolean : ZodBase
  | array : ZodBase → ZodBase
  | any : ZodBase

/-- The optionality modifier a converted field carries on top of its base:
plain (required), `.optional()`, or `.default(d)`. -/
inductive ZodMode where
  | required : ZodMode
  | optional : ZodMode
  | withDefault : JsonValue → ZodMode

/-- A converted per-property Zod schema. -/
structure ZodField where
  base : ZodBase
  mode : ZodMode

/-- JS property access schema[key] on a schema value; non-objects yield
undefined. -/
def getProp (key : String) : JsonValue → Option JsonValue
  | .obj fields => lookupStr key fields
  | _ => none

/-- JS truthiness, as used by `jsonSchema['items'] ? ... : z.any()`. -/
def truthy : JsonValue → Bool
  | .null => false
  | .bool b => b
  | .num n => !(n == 0)
  | .str s => !(s == "")
  | _ => true

/-- The type switch of createZodFieldFromJsonSchema
(src/jsonSchemaValidator.ts:124-159): string/number/integer/boolean/array
map to the corresponding Zod base (an array recursing into a truthy items
sub-schema, else unconstrained elements), any other or missing type falls
into the catch-all z.any(). The recursive items call passes no required
flag and no default, so only the base of the item conversion is used. -/
def zodBaseOfSchema : JsonValue → ZodBase
  | .obj fields => ofType fields
  | _ => .any
where
  ofType : List (String × JsonValue) → ZodBase := fun fields =>
    match lookupStr "type" fields with
    | some (.str "string") => .string
    | some (.str "number") => .number
    | some (.str "integer") => .int
    | some (.str "boolean") => .boolean
    | some (.str "array") => .array (items fields)
    | _ => .any
  items : List (String × JsonValue) → ZodBase
  | [] => .any
  | (k, v) :: rest =>
    if k = "items" then (if truthy v then zodBaseOfSchema v else .any) else items rest

/-- src/jsonSchemaValidator.ts createZodFieldFromJsonSchema: the base type
from the declared type, then `.default(d)` when a default value is
supplied, else `.optional()` when the field is not required. -/
def createZodFieldFromJsonSchema (propSchema : JsonValue) (isRequired : Bool)
    (defaultValue : Option JsonValue) : ZodField :=
  { base := zodBaseOfSchema propSchema,
    mode :=
      match defaultValue with
      | some d => .withDefault d
      | none => if isRequired then .required else .optional }

/-- Membership in `new Set(jsonSchema['required'] || [])` for a string key:
the string entries of the declared required array (a string key never
equals a non-string Set member). -/
def requiredNames (jsonSchema : JsonValue) : List String :=
  match getProp "required" jsonSchema with
  | some (.arr xs) => xs.filterMap fun x => match x with | .str s => some s | _ => none
  | _ => []

/-- The shared property loop of convertJsonSchemaToMcpZod and the manual
fallback createZodSchemaFromJsonSchemaManual (src/jsonSchemaValidator.ts):
for a schema declaring type object together with a properties object,
convert each declared property with its required flag and declared
default; otherwise no fields. (The spec's design notes fix this manual
conversion as the sole value-validator implementation; the generated-code
path delegates to the external json-schema-to-zod library.) -/
def convertFields (jsonSchema : JsonValue) : List (String × ZodField) :=
  match getProp "type" jsonSchema, getProp "properties" jsonSchema with
  | some (.str "object"), some (.obj props) =>
      props.map fun kv =>
        (kv.1, createZodFieldFromJsonSchema kv.2 ((requiredNames jsonSchema).contains kv.1)
          (getProp "default" kv.2))
  | _, _ => []

/-- Modelled from the spec: Zod runtime type acceptance for the base types
the conversion produces (spec section 4.2: string, number, integer as a
whole number, boolean, array with a homogeneous items check, and a
catch-all that accepts any value). Model numbers are integers, so the
wholeness refinement of z.number().int() is satisfied by every model
number. -/
def zodTypeCheck : ZodBase → JsonValue → Bool
  | .string, .str _ => true
  | .number, .num _ => true
  | .int, .num _ => true
  | .boolean, .bool _ => true
  | .array b, .arr xs => xs.all fun x => zodTypeCheck b x
  | .any, _ => true
  | _, _ => false

/-- Modelled from the spec: parsing an input object with the Zod object
validator over converted fields (spec section 4.2 contract). Per declared
field, a present value must pass its base type check, else an error naming
the field; an absent value is an error naming the field when required, is
omitted when optional, and binds the declared default when one exists.
Errors aggregate across all fields; unknown input keys are stripped. -/
def zodObjectParseAux : List (String × ZodField) → List (String × JsonValue) →
    List String × List (String × JsonValue)
  | [], _ => ([], [])
  | (k, f) :: rest, input =>
    let r := zodObjectParseAux rest input
    match lookupStr k input with
    | some v =>
      if zodTypeCheck f.base v then (r.1, (k, v) :: r.2)
      else ((k ++ ": invalid type") :: r.1, r.2)
    | none =>
      match f.mode with
      | .required => ((k ++ ": Required") :: r.1, r.2)
      | .optional => (r.1, r.2)
      | .withDefault d => (r.1, (k, d) :: r.2)

/-- The overall parse result: the coerced output when no field failed, else
the aggregated error list. -/
def zodObjectParse (fields : List (String × ZodField)) (input : List (String × JsonValue)) :
    Except (List String) (List (String × JsonValue)) :=
  match zodObjectParseAux fields input with
  | ([], out) => Except.ok out
  | (e :: es, _) => Except.error (e :: es)

/-- One field step of the parse either leaves the error list unchanged or
prepends one error for its own key. -/
theorem zodAux_cons_errs (k' : String) (f' : ZodField) (rest : List (String × ZodField))
    (input : List (String × JsonValue)) :
    (zodObjectParseAux ((k', f') :: rest) input).1 = (zodObjectParseAux rest input).1
    ∨ ∃ e, (zodObjectParseAux ((k', f') :: rest) input).1 =
        e :: (zodObjectParseAux rest input).1 := by
  simp only [zodObjectParseAux]
  cases hl : lookupStr k' input with
  | some v =>
    by_cases ht : zodTypeCheck f'.base v = true
    · exact Or.inl (by simp [ht])
    · exact Or.inr ⟨k' ++ ": invalid type", by simp [ht]⟩
  | none =>
    cases hm : f'.mode with
    | required => exact Or.inr ⟨k' ++ ": Required", rfl⟩
    | optional => exact Or.inl rfl
    | withDefault d => exact Or.inl rfl

/-- One field step of the parse either leaves the coerced output unchanged
or prepends one binding for its own key. -/
theorem zodAux_cons_out (k' : String) (f' : ZodField) (rest : List (String × ZodField))
    (input : List (String × JsonValue)) :
    (zodObjectParseAux ((k', f') :: rest) input).2 = (zodObjectParseAux rest input).2
    ∨ ∃ v, (zodObjectParseAux ((k', f') :: rest) input).2 =
        (k', v) :: (zodObjectParseAux rest input).2 := by
  simp only [zodObjectParseAux]
  cases hl : lookupStr k' input with
  | some v =>
    by_cases ht : zodTypeCheck f'.base v = true
    · exact Or.inr ⟨v, by simp [ht]⟩
    · exact Or.inl (by simp [ht])
  | none =>
    cases hm : f'.mode with
    | required => exact Or.inl rfl
    | optional => exact Or.inl rfl
    | withDefault d => exact Or.inr ⟨d, rfl⟩

theorem zodAux_lookup_cons_ne {k k' : String} (hne : k' ≠ k) (f' : ZodField)
    (rest : List (String × ZodField)) (input : List (String × JsonValue)) :
    lookupStr k (zodObjectParseAux ((k', f') :: rest) input).2 =
      lookupStr k (zodObjectParseAux rest input).2 := by
  rcases zodAux_cons_out k' f' rest input with h | ⟨v, h⟩
  · rw [h]
  · rw [h]
    simp [lookupStr, hne]

/-- A missing required field always contributes its error. -/
theorem zodAux_required_mem (fields : List (String × ZodField))
    (input : List (String × JsonValue)) (k : String) (f : ZodField)
    (hmem : (k, f) ∈ fields) (habs : lookupStr k input = none)
    (hreq : f.mode = ZodMode.required) :
    (k ++ ": Required") ∈ (zodObjectParseAux fields input).1 := by
  induction fields with
  | nil => cases hmem
  | cons hd rest ih =>
    obtain ⟨k', f'⟩ := hd
    rcases List.mem_cons.mp hmem with heq | htail
    · rw [Prod.mk.injEq] at heq
      obtain ⟨rfl, rfl⟩ := heq
      simp only [zodObjectParseAux, habs, hreq]
      exact List.mem_cons_self _ _
    · have hrest := ih htail
      rcases zodAux_cons_errs k' f' rest input with h | ⟨e, h⟩
      · rw [h]; exact hrest
      · rw [h]; exact List.mem_cons_of_mem e hrest

/-- The coerced output binds only declared field keys. -/
theorem zodAux_out_keys (fields : List (String × ZodField))
    (input : List (String × JsonValue)) (k : String)
    (hk : k ∉ fields.map Prod.fst) :
    lookupStr k (zodObjectParseAux fields input).2 = none := by
  induction fields with
  | nil => rfl
  | cons hd rest ih =>
    obtain ⟨k', f'⟩ := hd
    simp only [List.map_cons, List.mem_cons, not_or] at hk
    have hne : k' ≠ k := fun h => hk.1 h.symm
    rw [zodAux_lookup_cons_ne hne]
    exact ih hk.2

/-- A missing optional field without a default is absent from the coerced
output (field keys assumed distinct, as JS object keys are). -/
theorem zodAux_optional_none (fields : List (String × ZodField))
    (input : List (String × JsonValue)) (k : String) (f : ZodField)
    (hnodup : (fields.map Prod.fst).Nodup) (hmem : (k, f) ∈ fields)
    (habs : lookupStr k input = none) (hopt : f.mode = ZodMode.optional) :
    lookupStr k (zodObjectParseAux fields input).2 = none := by
  induction fields with
  | nil => cases hmem
  | cons hd rest ih =>
    obtain ⟨k', f'⟩ := hd
    simp only [List.map_cons, List.nodup_cons] at hnodup
    by_cases hkk : k' = k
    · subst hkk
      have hf : f' = f := by
        rcases List.mem_cons.mp hmem with heq | htail
        · exact ((Prod.mk.injEq _ _ _ _).mp heq).2.symm ▸ rfl
        · exact absurd (List.mem_map_of_mem Prod.fst htail) hnodup.1
      subst hf
      simp only [zodObjectParseAux, habs, hopt]
      exact zodAux_out_keys rest input k' hnodup.1
    · have htail : (k, f) ∈ rest := by
        rcases List.mem_cons.mp hmem with heq | ht
        · exact absurd ((Prod.mk.injEq _ _ _ _).mp heq).1.symm hkk
        · exact ht
      rw [zodAux_lookup_cons_ne hkk]
      exact ih hnodup.2 htail

/-- A missing field with a declared default is bound to that default in the
coerced output (field keys assumed distinct). -/
theorem zodAux_default_some (fields : List (String × ZodField))
    (input : List (String × JsonValue)) (k : String) (f : ZodField) (d : JsonValue)
    (hnodup : (fields.map Prod.fst).Nodup) (hmem : (k, f) ∈ fields)
    (habs : lookupStr k input = none) (hdef : f.mode = ZodMode.withDefault d) :
    lookupStr k (zodObjectParseAux fields input).2 = some d := by
  induction fields with
  | nil => cases hmem
  | cons hd rest ih =>
    obtain ⟨k', f'⟩ := hd
    simp only [List.map_cons, List.nodup_cons] at hnodup
    by_cases hkk : k' = k
    · subst hkk
      have hf : f' = f := by
        rcases List.mem_cons.mp hmem with heq | htail
        · exact ((Prod.mk.injEq _ _ _ _).mp heq).2.symm ▸ rfl
        · exact absurd (List.mem_map_of_mem Prod.fst htail) hnodup.1
      subst hf
      simp only [zodObjectParseAux, habs, hdef]
      simp [lookupStr]
    · have htail : (k, f) ∈ rest := by
        rcases List.mem_cons.mp hmem with heq | ht
        · exact absurd ((Prod.mk.injEq _ _ _ _).mp heq).1.symm hkk
        · exact ht
      rw [zodAux_lookup_cons_ne hkk]
      exact ih hnodup.2 htail

/-- The spec's concrete scenario B schema: an object schema requiring an
integer field user_id. -/
def userIdSchema : JsonValue :=
  .obj [("type", .str "object"),
        ("properties", .obj [("user_id", .obj [("type", .str "integer")])]),
        ("required", .arr [.str "user_id"])]

/-- C5: for every parameter schema (declared type object with a properties
object, distinct property names) and every input map: a mandatory property
(listed in required, no default) that is missing makes the built validator
reject the input with an error naming the property; a missing optional
property without a default is absent from the coerced output; a missing
property with a declared default is bound to that default in the coerced
output; and the concrete scenario B holds (empty input against a schema
requiring integer user_id is rejected naming user_id). -/
theorem convertedValidator_missing_field (schema : JsonValue)
    (props : List (String × JsonValue)) (input : List (String × JsonValue))
    (k : String) (prop : JsonValue)
    (htype : getProp "type" schema = some (.str "object"))
    (hprops : getProp "properties" schema = some (.obj props))
    (hnodup : (props.map Prod.fst).Nodup)
    (hmem : (k, prop) ∈ props)
    (habs : lookupStr k input = none) :
    ((requiredNames schema).contains k = true → getProp "default" prop = none →
      ∃ errs, zodObjectParse (convertFields schema) input = Except.error errs ∧
        (k ++ ": Required") ∈ errs)
    ∧ ((requiredNames schema).contains k = false → getProp "default" prop = none →
      ∀ out, zodObjectParse (convertFields schema) input = Except.ok out →
        lookupStr k out = none)
    ∧ (∀ d, getProp "default" prop = some d →
      ∀ out, zodObjectParse (convertFields schema) input = Except.ok out →
        lookupStr k out = some d)
    ∧ zodObjectParse (convertFields userIdSchema) [] = Except.error ["user_id: Required"] := by
  have hcf : convertFields schema = props.map (fun kv =>
      (kv.1, createZodFieldFromJsonSchema kv.2 ((requiredNames schema).contains kv.1)
        (getProp "default" kv.2))) := by
    unfold convertFields
    rw [htype, hprops]
    rfl
  have hmemf : (k, createZodFieldFromJsonSchema prop ((requiredNames schema).contains k)
      (getProp "default" prop)) ∈ convertFields schema := by
    rw [hcf]
    exact List.mem_map_of_mem _ hmem
  have hkeysnd : ((convertFields schema).map Prod.fst).Nodup := by
    rw [hcf, List.map_map]
    exact hnodup
  refine ⟨?_, ?_, ?_, rfl⟩
  · intro hreq hdef
    rw [hreq, hdef] at hmemf
    have herr := zodAux_required_mem _ input k _ hmemf habs rfl
    rcases haux : zodObjectParseAux (convertFields schema) input with ⟨errs, out⟩
    rw [haux] at herr
    cases errs with
    | nil => cases herr
    | cons e es =>
      exact ⟨e :: es, by simp [zodObjectParse, haux], herr⟩
  · intro hreq hdef out hok
    rw [hreq, hdef] at hmemf
    have hout := zodAux_optional_none _ input k _ hkeysnd hmemf habs rfl
    rcases haux : zodObjectParseAux (convertFields schema) input with ⟨errs, out'⟩
    rw [haux] at hout
    unfold zodObjectParse at hok
    rw [haux] at hok
    cases errs with
    | nil =>
      cases hok
      exact hout
    | cons e es => exact Except.noConfusion hok
  · intro d hdef out hok
    rw [hdef] at hmemf
    have hout := zodAux_default_some _ input k _ d hkeysnd hmemf habs rfl
    rcases haux : zodObjectParseAux (convertFields schema) input with ⟨errs, out'⟩
    rw [haux] at hout
    unfold zodObjectParse at hok
    rw [haux] at hok
    cases errs with
    | nil =>
      cases hok
      exact hout
    | cons e es => exact Except.noConfusion hok

/-- Witness for C5 at the spec's scenario B: empty input against the
user_id schema is rejected with an error naming user_id as required. -/
theorem convertedValidator_missing_field_witness :
    ∃ errs, zodObjectParse (convertFields userIdSchema) [] = Except.error errs ∧
      ("user_id" ++ ": Required") ∈ errs :=
  (convertedValidator_missing_field userIdSchema
      [("user_id", .obj [("type", .str "integer")])] [] "user_id"
      (.obj [("type", .str "integer")]) rfl rfl (by simp) (by simp) rfl).1 rfl rfl

/-- A content unit of an MCP response (always type text in this server). -/
structure ContentItem where
  type : String
  text : String
deriving Repr, DecidableEq

/-- src/responses.ts MCPResponse: content plus the optional error flag
(absent on success responses). -/
structure MCPResponse where
  content : List ContentItem
  isError : Option Bool
deriving Repr, DecidableEq

/-- src/responses.ts createSuccessResponse. -/
def createSuccessResponse (message : String) : MCPResponse :=
  { content := [{ type := "text", text := message }], isError := none }

/-- A thrown JS value: an Error carrying a message, or any other value. -/
inductive JsError where
  | error : String → JsError
  | nonError : JsError
deriving Repr, DecidableEq

/-- The source's `error instanceof Error ? error.message : 'Unknown error'`. -/
def errorMessageOf : JsError → String
  | .error msg => msg
  | .nonError => "Unknown error"

/-- src/responses.ts createErrorResponse (console logging does not reach
the response). -/
def createErrorResponse (operation : String) (error : JsError) : MCPResponse :=
  { content := [⟨"text", "Error " ++ operation ++ ": " ++ errorMessageOf error⟩],
    isError := some true }

/-- The stage annotation held by withErrorHandling's closed-over `stage`
variable: empty before the first logger call, afterwards " while "
followed by the last logged message. -/
def stageSuffix (stages : List String) : String :=
  match stages.getLast? with
  | none => ""
  | some msg => " while " ++ msg

/-- src/responses.ts withErrorHandling, shallowly embedded: a body run is
represented by the sequence of stage messages it logged before finishing
and by its outcome (a result string, or the thrown value). The wrapper
returns the success envelope of the result, or the error envelope for the
operation annotated with the last reported stage; the synchronous and the
promise paths of the source build the same envelope. -/
def withErrorHandling (operation : String) (stages : List String)
    (outcome : Except JsError String) : MCPResponse :=
  match outcome with
  | .ok value => createSuccessResponse value
  | .error e => createErrorResponse (operation ++ stageSuffix stages) e

/-- C9: no body outcome escapes the wrapper unformatted. A failing body
(whatever it logged) yields a response with the error flag set whose single
text is the error envelope containing the operation description and, when
a stage was reported before the failure, " while " followed by the last
reported stage; a succeeding body yields the success envelope carrying the
body's string as a single text content unit. -/
theorem withErrorHandling_envelope (operation : String) (stages : List String)
    (outcome : Except JsError String) :
    (∀ e, outcome = Except.error e →
      (withErrorHandling operation stages outcome).isError = some true
      ∧ (withErrorHandling operation stages outcome).content =
          [⟨"text", "Error " ++ (operation ++ stageSuffix stages) ++ ": " ++ errorMessageOf e⟩]
      ∧ operation.data <:+:
          ("Error " ++ (operation ++ stageSuffix stages) ++ ": " ++ errorMessageOf e).data
      ∧ (∀ msg, stages.getLast? = some msg →
          (" while " ++ msg).data <:+:
            ("Error " ++ (operation ++ stageSuffix stages) ++ ": " ++ errorMessageOf e).data))
    ∧ (∀ v, outcome = Except.ok v →
      withErrorHandling operation stages outcome = createSuccessResponse v
      ∧ (withErrorHandling operation stages outcome).content = [⟨"text", v⟩]
      ∧ (withErrorHandling operation stages outcome).isError = none) := by
  constructor
  · intro e he
    subst he
    refine ⟨rfl, rfl, ?_, ?_⟩
    · refine ⟨"Error ".data, (stageSuffix stages ++ ": " ++ errorMessageOf e).data, ?_⟩
      simp [String.data_append, List.append_assoc]
    · intro msg hmsg
      have hsuf : stageSuffix stages = " while " ++ msg := by
        unfold stageSuffix
        rw [hmsg]
      rw [hsuf]
      refine ⟨("Error " ++ operation).data, (": " ++ errorMessageOf e).data, ?_⟩
      simp [String.data_append, List.append_assoc]
  · intro v hv
    subst hv
    exact ⟨rfl, rfl, rfl⟩

/-- Witness for C9 at a concrete failing run: the error envelope names the
operation and the last reported stage. -/
theorem withErrorHandling_envelope_witness :
    (withErrorHandling "executing SQL query" ["parsing parameters", "executing query"]
        (Except.error (JsError.error "connection refused"))).isError = some true
    ∧ (withErrorHandling "executing SQL query" ["parsing parameters", "executing query"]
        (Except.error (JsError.error "connection refused"))).content =
        [⟨"text", "Error executing SQL query while executing query: connection refused"⟩] := by
  have h := (withErrorHandling_envelope "executing SQL query"
      ["parsing parameters", "executing query"]
      (Except.error (JsError.error "connection refused"))).1
      (JsError.error "connection refused") rfl
  exact ⟨h.1, by rw [h.2.1]; decide⟩

/-- A result column descriptor as pg reports it to the handlers. -/
structure FieldDesc where
  name : String
  dataTypeID : Nat
deriving Repr, DecidableEq

/-- The surface of a pool.query result used by the handlers. -/
structure QueryResult where
  rows : List JsonValue
  rowCount : Int
  fields : List FieldDesc

/-- The external collaborators both execution paths call: the pooled query
executor (SQL text plus positional values, absent values for missing
parameters) and schemaService's type-name resolver (a map from oids to
names, omitting unresolvable oids). Either call may fail. -/
structure Db where
  query : String → List (Option JsonValue) → Except JsError QueryResult
  getTypeNames : List Nat → Except JsError (List (Nat × String))

/-- Association lookup on a Nat-keyed map (the Map returned by
getTypeNames). -/
def lookupNat {α : Type} (key : Nat) : List (Nat × α) → Option α
  | [] => none
  | (k, v) :: rest => if k = key then some v else lookupNat key rest

/-- A formatted column descriptor of the response payload. -/
structure FormattedField where
  name : String
  dataType : String
  dataTypeID : Nat
deriving Repr, DecidableEq

/-- The formatted payload both handlers stringify: rows verbatim, the row
count, and per-column name, resolved type name (with the literal unknown
marker when resolution missed the oid) and raw oid. -/
structure FormattedResult where
  rows : List JsonValue
  rowCount : Int
  fields : List FormattedField

/-- The shared result-formatting step of both handlers. -/
def formatResult (result : QueryResult) (typeNames : List (Nat × String)) : FormattedResult :=
  { rows := result.rows,
    rowCount := result.rowCount,
    fields := result.fields.map fun f =>
      { name := f.name,
        dataType := (lookupNat f.dataTypeID typeNames).getD "unknown",
        dataTypeID := f.dataTypeID } }

/-- tools/executeSqlQuery handler body: parse the named parameters of the
request text, map the optional params object positionally, execute the
rewritten SQL, resolve type names, format. -/
def executeSqlQueryBody (db : Db) (query : String)
    (params : Option (List (String × JsonValue))) : Except JsError FormattedResult := do
  let parsed := parseNamedParameters query
  let positionalParams := mapToPositional (params.getD []) parsed.parameterOrder
  let result ← db.query parsed.sql positionalParams
  let typeNames ← db.getTypeNames (result.fields.map fun f => f.dataTypeID)
  pure (formatResult result typeNames)

/-- src/types.ts SavedToolConfig: the persisted tool definition. -/
structure SavedToolConfig where
  name : String
  description : String
  sql_query : String
  sql_prepared : String
  parameter_schema : JsonValue
  parameter_order : List String

/-- src/dynamicToolHandler.ts createDynamicToolHandler body: validate the
params with the value validator converted from the stored parameter schema
(a validation failure becomes a TypeError naming the failing fields), map
the validated params positionally with the stored parameter order, execute
the stored prepared SQL, resolve type names, format. The conversion is the
manual path of src/jsonSchemaValidator.ts, which the spec's design notes
fix as the sole value-validator implementation. -/
def dynamicToolBody (db : Db) (toolConfig : SavedToolConfig)
    (params : List (String × JsonValue)) : Except JsError FormattedResult := do
  let validatedParams ←
    match zodObjectParse (convertFields toolConfig.parameter_schema) params with
    | .ok v => Except.ok v
    | .error errs =>
        Except.error (.error ("Parameter validation error: " ++ String.intercalate ", " errs))
  let positionalParams := mapToPositional validatedParams toolConfig.parameter_order
  let result ← db.query toolConfig.sql_prepared positionalParams
  let typeNames ← db.getTypeNames (result.fields.map fun f => f.dataTypeID)
  pure (formatResult result typeNames)

/-- The spec's shared five-step execution sequence (section 4.3): validate
input, map to positional values via the parameter order, execute the
prepared SQL, resolve type names, format. Parameterized by the validator
and the SQL/order pair. -/
def fiveStepPipeline (db : Db)
    (validate : List (String × JsonValue) → Except JsError (List (String × JsonValue)))
    (sqlPrepared : String) (parameterOrder : List String)
    (params : List (String × JsonValue)) : Except JsError FormattedResult := do
  let validated ← validate params
  let positionalParams := mapToPositional validated parameterOrder
  let result ← db.query sqlPrepared positionalParams
  let typeNames ← db.getTypeNames (result.fields.map fun f => f.dataTypeID)
  pure (formatResult result typeNames)

/-- The ad-hoc path's validation step: the raw params pass through. -/
def passthroughValidator (params : List (String × JsonValue)) :
    Except JsError (List (String × JsonValue)) := Except.ok params

/-- The dynamic path's validation step: the converted schema validator with
failures wrapped as a parameter-validation TypeError. -/
def zodValidator (schema : JsonValue) (params : List (String × JsonValue)) :
    Except JsError (List (String × JsonValue)) :=
  match zodObjectParse (convertFields schema) params with
  | .ok v => Except.ok v
  | .error errs =>
      Except.error (.error ("Parameter validation error: " ++ String.intercalate ", " errs))

/-- C4: both entry points are instances of one five-step sequence,
parameterized only by which SQL/order/validator they are given: the ad-hoc
handler equals the pipeline at the freshly parsed SQL and order with the
pass-through validator, and every dynamic tool handler equals the pipeline
at its stored prepared SQL, parameter order and schema validator; for
every database behavior and every input the corresponding observable
outcomes coincide, with the execute/resolve/format steps shared verbatim. -/
theorem handlers_share_pipeline (db : Db) (query : String)
    (params : Option (List (String × JsonValue))) (toolConfig : SavedToolConfig)
    (dynParams : List (String × JsonValue)) :
    executeSqlQueryBody db query params =
      fiveStepPipeline db passthroughValidator (parseNamedParameters query).sql
        (parseNamedParameters query).parameterOrder (params.getD [])
    ∧ dynamicToolBody db toolConfig dynParams =
      fiveStepPipeline db (zodValidator toolConfig.parameter_schema)
        toolConfig.sql_prepared toolConfig.parameter_order dynParams := by
  constructor
  · rfl
  · unfold dynamicToolBody fiveStepPipeline zodValidator
    cases zodObjectParse (convertFields toolConfig.parameter_schema) dynParams with
    | ok v => rfl
    | error errs => rfl

/-- JSON.stringify of a SavedToolConfig, as saveToolToFile writes it. -/
def serializeToolConfig (config : SavedToolConfig) : JsonValue :=
  .obj [("name", .str config.name),
        ("description", .str config.description),
        ("sql_query", .str config.sql_query),
        ("sql_prepared", .str config.sql_prepared),
        ("parameter_schema", config.parameter_schema),
        ("parameter_order", .arr (config.parameter_order.map JsonValue.str))]

/-- A JSON array read back as a string list; any non-string entry fails. -/
def stringList : List JsonValue → Option (List String)
  | [] => some []
  | .str s :: rest =>
    (match stringList rest with
     | some ss => some (s :: ss)
     | none => none)
  | _ :: _ => none

/-- Extraction of a string-typed field (typeof x === 'string'). -/
def asString : Option JsonValue → Option String
  | some (.str s) => some s
  | _ => none

/-- JS typeof x === 'object': objects, arrays, and null all satisfy it. -/
def typeofObject : JsonValue → Bool
  | .null => true
  | .obj _ => true
  | .arr _ => true
  | _ => false

/-- src/storage.ts isValidToolConfig together with the field extraction of
a parsed record: string name/description/sql_query/sql_prepared, a
parameter_schema whose JS typeof is object, and a parameter_order that is
an array of strings. -/
def parseToolConfig : JsonValue → Option SavedToolConfig
  | .obj fields =>
    (match asString (lookupStr "name" fields), asString (lookupStr "description" fields),
          asString (lookupStr "sql_query" fields), asString (lookupStr "sql_prepared" fields),
          lookupStr "parameter_schema" fields,
          (match lookupStr "parameter_order" fields with
           | some (.arr xs) => stringList xs
           | _ => none) with
     | some name, some description, some sql_query, some sql_prepared, some schema, some order =>
       if typeofObject schema then
         some { name := name, description := description, sql_query := sql_query,
                sql_prepared := sql_prepared, parameter_schema := schema,
                parameter_order := order }
       else none
     | _, _, _, _, _, _ => none)
  | _ => none

/-- src/storage.ts saveToolToFile: a successful write fully replaces any
existing record for the tool name (the tools directory holds one file per
name). -/
def saveToolToFile (files : List (String × JsonValue)) (toolName : String)
    (config : SavedToolConfig) : List (String × JsonValue) :=
  (toolName, serializeToolConfig config) :: files.filter (fun kv => !(kv.1 == toolName))

/-- src/storage.ts loadToolFromFile: an absent file yields an explicit
none; a record failing structural validation is an error; otherwise the
parsed config. -/
def loadToolFromFile (files : List (String × JsonValue)) (toolName : String) :
    Except JsError (Option SavedToolConfig) :=
  match lookupStr toolName files with
  | none => Except.ok none
  | some v =>
    match parseToolConfig v with
    | some config => Except.ok (some config)
    | none => Except.error (.error ("Failed to load tool '" ++ toolName ++
        "' from file: Invalid tool configuration in file"))

/-- src/storage.ts deleteToolFile: deleting an absent file is a no-op;
otherwise the record is removed. -/
def deleteToolFile (files : List (String × JsonValue)) (toolName : String) :
    List (String × JsonValue) :=
  files.filter (fun kv => !(kv.1 == toolName))

/-- Observable side effects of a lifecycle operation on the MCP server
registry handles and the persistence store. -/
inductive Event where
  | registeredTool : String → Event
  | updatedTool : String → Event
  | removedHandle : String → Event
  | wroteFile : String → Event
  | deletedFile : String → Event
deriving Repr, DecidableEq

/-- The mutable server state the lifecycle handlers touch: the in-memory
registeredTools map (name to the definition its live handler was built
from) and the tools directory of the persistence store (name to the
serialized record). -/
structure ServerState where
  registeredTools : List (String × SavedToolConfig)
  files : List (String × JsonValue)

/-- One lifecycle handler execution: the stages logged, the outcome thrown
or returned, the state left behind, and the side effects performed. -/
structure HandlerRun where
  stages : List String
  outcome : Except JsError String
  state : ServerState
  events : List Event

/-- The MCP response of a handler run, through the shared wrapper. -/
def runResponse (operation : String) (run : HandlerRun) : MCPResponse :=
  withErrorHandling operation run.stages run.outcome

/-- The parameter-count suffix of the save_query success message. -/
def paramListMsg (namedParams : List String) : String :=
  toString namedParams.length ++ " parameter" ++
    (if namedParams.length = 1 then "" else "s") ++ ": " ++
    (if namedParams.isEmpty then "none" else String.intercalate ", " namedParams)

/-- tools/saveQuery handler body: the conflict check against the registry
comes first and throws before any stage is logged or any effect performed;
then schema validation, parameter parsing, persist-then-register (create)
or persist-then-update (overwrite). Registration appends to the Map; an
update replaces the existing entry's behavior in place. -/
def saveQueryRun (st : ServerState) (tool_name description sql_query : String)
    (parameter_schema : JsonValue) (overwrite : Bool) : HandlerRun :=
  let toolExists := (st.registeredTools.map Prod.fst).contains tool_name
  if toolExists && !overwrite then
    { stages := [],
      outcome := Except.error (.error ("Tool with name '" ++ tool_name ++
        "' already exists. Set overwrite=true to update it.")),
      state := st, events := [] }
  else if !(validateJsonSchema parameter_schema) then
    { stages := ["validating parameter schema"],
      outcome := Except.error (.error "Invalid parameter_schema: must be a valid JSON Schema object"),
      state := st, events := [] }
  else
    let parsed := parseNamedParameters sql_query
    let namedParams := extractNamedParameters sql_query
    let toolConfig : SavedToolConfig :=
      { name := tool_name, description := description, sql_query := sql_query,
        sql_prepared := parsed.sql, parameter_schema := parameter_schema,
        parameter_order := parsed.parameterOrder }
    let files' := saveToolToFile st.files tool_name toolConfig
    if !toolExists then
      { stages := ["validating parameter schema", "parsing SQL parameters",
          "persisting tool to file", "registering new tool in MCP server"],
        outcome := Except.ok ("Successfully created tool '" ++ tool_name ++ "' with " ++
          paramListMsg namedParams),
        state := { registeredTools := st.registeredTools ++ [(tool_name, toolConfig)],
                   files := files' },
        events := [.wroteFile tool_name, .registeredTool tool_name] }
    else
      { stages := ["validating parameter schema", "parsing SQL parameters",
          "persisting tool to file", "updating existing tool in MCP server"],
        outcome := Except.ok ("Successfully updated tool '" ++ tool_name ++ "' with " ++
          paramListMsg namedParams),
        state := { registeredTools := st.registeredTools.map
                     (fun kv => if kv.1 == tool_name then (kv.1, toolConfig) else kv),
                   files := files' },
        events := [.wroteFile tool_name, .updatedTool tool_name] }

/-- tools/deleteSavedQuery PROTECTED_TOOLS: the fixed, non-configurable set
of core tool names that can never be deleted. -/
def PROTECTED_TOOLS : List String :=
  ["execute_sql_query", "save_query", "delete_saved_query", "list_saved_queries",
   "show_saved_query", "list_schemas", "list_tables", "describe_table", "list_views",
   "describe_view"]

/-- tools/deleteSavedQuery handler body: a protected name throws before any
stage is logged or any effect performed, regardless of registry content;
an unregistered name throws not-found; otherwise the server handle is
removed, the registry entry dropped, and the backing file deleted. -/
def deleteSavedQueryRun (st : ServerState) (tool_name : String) : HandlerRun :=
  if PROTECTED_TOOLS.contains tool_name then
    { stages := [],
      outcome := Except.error (.error ("Cannot delete core tool '" ++ tool_name ++ "'")),
      state := st, events := [] }
  else if !(st.registeredTools.map Prod.fst).contains tool_name then
    { stages := [],
      outcome := Except.error (.error ("Saved query '" ++ tool_name ++ "' not found")),
      state := st, events := [] }
  else
    { stages := ["removing tool from MCP server", "deleting tool file from storage"],
      outcome := Except.ok ("Successfully deleted saved query '" ++ tool_name ++ "'"),
      state := { registeredTools := st.registeredTools.filter (fun kv => !(kv.1 == tool_name)),
                 files := deleteToolFile st.files tool_name },
      events := .removedHandle tool_name ::
        (if (st.files.map Prod.fst).contains tool_name then [.deletedFile tool_name] else []) }

/-- A withErrorHandling run that threw before logging any stage formats as
the plain error envelope of the operation. -/
theorem withErrorHandling_no_stage (operation : String) (e : JsError) :
    withErrorHandling operation [] (Except.error e) = createErrorResponse operation e := by
  unfold withErrorHandling stageSuffix
  simp [String.append_empty]

/-- A structurally valid schema candidate is an object. -/
theorem validateJsonSchema_obj {v : JsonValue} (h : validateJsonSchema v = true) :
    ∃ fields, v = JsonValue.obj fields := by
  cases v with
  | null => cases h
  | bool b => cases h
  | num n => cases h
  | str s => cases h
  | arr xs =>
    exfalso
    rw [show validateJsonSchema (.arr xs) = false from rfl] at h
    cases h
  | obj fields => exact ⟨fields, rfl⟩

theorem stringList_map_str (order : List String) :
    stringList (order.map JsonValue.str) = some order := by
  induction order with
  | nil => rfl
  | cons s rest ih => simp [stringList, ih]

/-- parseToolConfig inverts serializeToolConfig whenever the stored
parameter schema has JS typeof object (isValidToolConfig's check). -/
theorem parseToolConfig_serialize (config : SavedToolConfig)
    (hobj : typeofObject config.parameter_schema = true) :
    parseToolConfig (serializeToolConfig config) = some config := by
  obtain ⟨name, description, sql_query, sql_prepared, schema, order⟩ := config
  simp only [serializeToolConfig, parseToolConfig, lookupStr, asString] at *
  simp [stringList_map_str, hobj]

/-- C6: save_query without the overwrite flag against a registered name is
rejected with the conflict error naming the tool, thrown before any stage
is logged; the registry and the file store are untouched and no side
effect (no file write, no registration) is performed. -/
theorem saveQuery_conflict (st : ServerState) (tool_name description sql_query : String)
    (parameter_schema : JsonValue)
    (hexists : (st.registeredTools.map Prod.fst).contains tool_name = true) :
    (saveQueryRun st tool_name description sql_query parameter_schema false).state = st
    ∧ (saveQueryRun st tool_name description sql_query parameter_schema false).events = []
    ∧ runResponse ("saving tool '" ++ tool_name ++ "'")
        (saveQueryRun st tool_name description sql_query parameter_schema false) =
      createErrorResponse ("saving tool '" ++ tool_name ++ "'")
        (.error ("Tool with name '" ++ tool_name ++
          "' already exists. Set overwrite=true to update it."))
    ∧ (runResponse ("saving tool '" ++ tool_name ++ "'")
        (saveQueryRun st tool_name description sql_query parameter_schema false)).isError =
      some true := by
  have hrun : saveQueryRun st tool_name description sql_query parameter_schema false =
      { stages := [],
        outcome := Except.error (.error ("Tool with name '" ++ tool_name ++
          "' already exists. Set overwrite=true to update it.")),
        state := st, events := [] } := by
    unfold saveQueryRun
    rw [hexists]
    rfl
  rw [hrun]
  refine ⟨rfl, rfl, ?_, ?_⟩
  · exact withErrorHandling_no_stage _ _
  · rw [show runResponse ("saving tool '" ++ tool_name ++ "'")
        { stages := [], outcome := Except.error (.error ("Tool with name '" ++ tool_name ++
            "' already exists. Set overwrite=true to update it.")),
          state := st, events := [] } = _ from withErrorHandling_no_stage _ _]
    rfl

/-- The shared test fixture configuration (test/helpers fixtures
createSavedToolConfig, with the get_user name of scenario C). -/
def sampleConfig : SavedToolConfig :=
  { name := "get_user", description := "A test tool for testing",
    sql_query := "SELECT * FROM users WHERE id = :user_id",
    sql_prepared := "SELECT * FROM users WHERE id = $1",
    parameter_schema := userIdSchema,
    parameter_order := ["user_id"] }

/-- Witness for C6: a rejected conflicting save against a one-tool registry
leaves the state unchanged, performs no effect, and flags the error. -/
theorem saveQuery_conflict_witness :
    (saveQueryRun { registeredTools := [("get_user", sampleConfig)], files := [] }
        "get_user" "d" "SELECT 1" (JsonValue.obj []) false).state =
      { registeredTools := [("get_user", sampleConfig)], files := [] }
    ∧ (saveQueryRun { registeredTools := [("get_user", sampleConfig)], files := [] }
        "get_user" "d" "SELECT 1" (JsonValue.obj []) false).events = []
    ∧ (runResponse ("saving tool '" ++ "get_user" ++ "'")
        (saveQueryRun { registeredTools := [("get_user", sampleConfig)], files := [] }
          "get_user" "d" "SELECT 1" (JsonValue.obj []) false)).isError = some true := by
  have h := saveQuery_conflict { registeredTools := [("get_user", sampleConfig)], files := [] }
    "get_user" "d" "SELECT 1" (JsonValue.obj []) (by decide)
  exact ⟨h.1, h.2.1, h.2.2.2⟩

/-- C7: delete_saved_query on any protected name always rejects with the
core-tool error naming the tool, before any stage is logged, whether or
not a registry entry of that name exists; the handle's remove is not
called, the registry map is unchanged, and no file is deleted (no events,
state unchanged). -/
theorem deleteSavedQuery_protected (st : ServerState) (tool_name : String)
    (hprot : PROTECTED_TOOLS.contains tool_name = true) :
    (deleteSavedQueryRun st tool_name).state = st
    ∧ (deleteSavedQueryRun st tool_name).events = []
    ∧ runResponse ("deleting tool '" ++ tool_name ++ "'") (deleteSavedQueryRun st tool_name) =
      createErrorResponse ("deleting tool '" ++ tool_name ++ "'")
        (.error ("Cannot delete core tool '" ++ tool_name ++ "'"))
    ∧ (runResponse ("deleting tool '" ++ tool_name ++ "'")
        (deleteSavedQueryRun st tool_name)).isError = some true := by
  have hrun : deleteSavedQueryRun st tool_name =
      { stages := [],
        outcome := Except.error (.error ("Cannot delete core tool '" ++ tool_name ++ "'")),
        state := st, events := [] } := by
    unfold deleteSavedQueryRun
    rw [hprot]
    rfl
  rw [hrun]
  refine ⟨rfl, rfl, ?_, ?_⟩
  · exact withErrorHandling_no_stage _ _
  · rw [show runResponse ("deleting tool '" ++ tool_name ++ "'")
        { stages := [],
          outcome := Except.error (.error ("Cannot delete core tool '" ++ tool_name ++ "'")),
          state := st, events := [] } = _ from withErrorHandling_no_stage _ _]
    rfl

/-- Witness for C7 at the protected name save_query, with a registry that
does contain a same-named entry: still rejected with no effect. -/
theorem deleteSavedQuery_protected_witness :
    (deleteSavedQueryRun { registeredTools := [("save_query", sampleConfig)], files := [] }
        "save_query").state =
      { registeredTools := [("save_query", sampleConfig)], files := [] }
    ∧ (deleteSavedQueryRun { registeredTools := [("save_query", sampleConfig)], files := [] }
        "save_query").events = []
    ∧ (runResponse ("deleting tool '" ++ "save_query" ++ "'")
        (deleteSavedQueryRun { registeredTools := [("save_query", sampleConfig)], files := [] }
          "save_query")).isError = some true := by
  have h := deleteSavedQuery_protected
    { registeredTools := [("save_query", sampleConfig)], files := [] } "save_query" (by decide)
  exact ⟨h.1, h.2.1, h.2.2.2⟩

/-- The definition save_query derives and persists from its inputs. -/
def derivedConfig (tool_name description sql_query : String) (parameter_schema : JsonValue) :
    SavedToolConfig :=
  { name := tool_name, description := description, sql_query := sql_query,
    sql_prepared := (parseNamedParameters sql_query).sql,
    parameter_schema := parameter_schema,
    parameter_order := (parseNamedParameters sql_query).parameterOrder }

/-- C8: a save that passes the conflict and schema checks persists a record
that loads back by name as a definition whose sql_prepared and
parameter_order are exactly what parseNamedParameters produces from the
persisted sql_query: the derived fields are always re-derivable from the
persisted template. -/
theorem savedTool_roundtrip (st : ServerState) (tool_name description sql_query : String)
    (parameter_schema : JsonValue) (overwrite : Bool)
    (hok : ((st.registeredTools.map Prod.fst).contains tool_name && !overwrite) = false)
    (hschema : validateJsonSchema parameter_schema = true) :
    ∃ config : SavedToolConfig,
      loadToolFromFile
          (saveQueryRun st tool_name description sql_query parameter_schema overwrite).state.files
          tool_name = Except.ok (some config)
      ∧ config.sql_query = sql_query
      ∧ config.sql_prepared = (parseNamedParameters sql_query).sql
      ∧ config.parameter_order = (parseNamedParameters sql_query).parameterOrder := by
  obtain ⟨fields, hfields⟩ := validateJsonSchema_obj hschema
  have hobj : typeofObject parameter_schema = true := by rw [hfields]; rfl
  have hfiles : (saveQueryRun st tool_name description sql_query parameter_schema
      overwrite).state.files = saveToolToFile st.files tool_name
      (derivedConfig tool_name description sql_query parameter_schema) := by
    unfold saveQueryRun
    simp only [hok, hschema, Bool.not_true, Bool.false_eq_true, if_false]
    by_cases hex : (st.registeredTools.map Prod.fst).contains tool_name = true
    · simp only [hex, Bool.not_true, Bool.false_eq_true, if_false]
      rfl
    · simp only [Bool.of_not_eq_true hex, Bool.not_false, if_true]
      rfl
  refine ⟨derivedConfig tool_name description sql_query parameter_schema, ?_, rfl, rfl, rfl⟩
  rw [hfiles]
  unfold loadToolFromFile saveToolToFile
  simp only [lookupStr, eq_self_iff_true, if_true]
  rw [parseToolConfig_serialize _ hobj]

/-- Witness for C8: saving the fixture get_user query into an empty server
and loading it back yields a definition re-derivable from its template. -/
theorem savedTool_roundtrip_witness :
    ∃ config : SavedToolConfig,
      loadToolFromFile
          (saveQueryRun { registeredTools := [], files := [] } "get_user" "A test tool"
            "SELECT * FROM users WHERE id = :user_id" userIdSchema false).state.files
          "get_user" = Except.ok (some config)
      ∧ config.sql_query = "SELECT * FROM users WHERE id = :user_id"
      ∧ config.sql_prepared =
          (parseNamedParameters "SELECT * FROM users WHERE id = :user_id").sql
      ∧ config.parameter_order =
          (parseNamedParameters "SELECT * FROM users WHERE id = :user_id").parameterOrder :=
  savedTool_roundtrip { registeredTools := [], files := [] } "get_user" "A test tool"
    "SELECT * FROM users WHERE id = :user_id" userIdSchema false (by decide) (by decide)

end PgMetatool
